import Mathlib

/-!
Verification development for the laserMonitor firmware (src/laserMonitor.ino).

The firmware's arithmetic is shallowly embedded over ℚ (the C code uses
`float`/`double` expressions; the rational model keeps the source's exact
formulas), ℕ for unsigned machine integers with explicit `% 2^16` where the
C type is `uint16_t`, and ℤ for the `int` iteration counter, which on the
AVR target is 16 bits wide.
-/

/-- The constant `#define MAX_CURRENT 2.5` (laserMonitor.ino line 15). -/
def MAX_CURRENT : ℚ := 2.5

/-- The constant `#define R25 1.1` selected by `#define R_VAL R25` (lines 28, 31). -/
def R_VAL : ℚ := 1.1

/-- The constant `#define MIN_TEMP 1.0` (line 42). -/
def MIN_TEMP : ℚ := 1.0

/-- The constant `#define MAX_TEMP 99.0` (line 43). -/
def MAX_TEMP : ℚ := 99.0

/-- The conversion `#define VOLTAGE(val) (((val) * (5 / 1023.0)) * 3.61)` (line 21)
from a 10-bit ADC count to a measured voltage. -/
def VOLTAGE (val : ℚ) : ℚ := val * (5 / 1023) * 3.61

/-- Body of `getCurrent` before the clip: `current = ((v1 - v2) / R_VAL)`
(line 214), as a function of the two already-converted voltages. -/
def instCurrent (v1 v2 : ℚ) : ℚ := (v1 - v2) / R_VAL

/-- The clipping at the end of `getCurrent` (lines 217-222): first clip
above at `MAX_CURRENT`, then clip below at `0.0`, in source order. -/
def clipCurrent (c : ℚ) : ℚ :=
  let c1 := if c > MAX_CURRENT then MAX_CURRENT else c
  if c1 < 0 then 0 else c1

/-- The function `getCurrent` (lines 209-225), as a function of the two raw ADC readings
`analogRead(A0)` and `analogRead(A1)` (each an integer in [0, 1023]). -/
def getCurrent (a b : ℕ) : ℚ := clipCurrent (instCurrent (VOLTAGE a) (VOLTAGE b))

/-- Modelled from the spec: the named calibration constant `referenceVoltage`
(spec section 4.1; the source writes the literal `5` inside `VOLTAGE`). -/
def referenceVoltage : ℚ := 5

/-- Modelled from the spec: the named constant `adcMax` (spec section 4.1;
the source writes the literal `1023.0` inside `VOLTAGE`). -/
def adcMax : ℚ := 1023

/-- Modelled from the spec: the named constant `probeScaleFactor` (spec
section 4.1; the source writes the literal `3.61` inside `VOLTAGE`). -/
def probeScaleFactor : ℚ := 3.61

/-- Modelled from the spec: the named constant `resistorValue` (spec section
4.1; the source uses `R_VAL` = 1.1). -/
def resistorValue : ℚ := 1.1

/-- Modelled from the spec: `voltage = raw * (referenceVoltage / adcMax) *
probeScaleFactor` (spec section 4.1). -/
def specVoltage (raw : ℚ) : ℚ := raw * (referenceVoltage / adcMax) * probeScaleFactor

/-- Modelled from the spec: `current = (regulatorVoltage - diodeVoltage) /
resistorValue` (spec section 4.1). -/
def specInstCurrent (vReg vDiode : ℚ) : ℚ := (vReg - vDiode) / resistorValue

/-- The function `getTemperature` (lines 267-279), as a function of the raw value the
Dallas sensor library returned: clip below at `MIN_TEMP`, then above at
`MAX_TEMP`, in source order. -/
def getTemperature (raw : ℚ) : ℚ :=
  let v1 := if raw < MIN_TEMP then MIN_TEMP else raw
  if v1 > MAX_TEMP then MAX_TEMP else v1

/-- The function `getSelector` (lines 94-103), as a function of the two digital reads.
`true` models a `HIGH` reading, `false` a `LOW` one; `sel` starts at 0,
becomes `0x02` when SWITCH2 reads LOW, and is or-ed with `0x01` when
SWITCH1 reads LOW. -/
def getSelector (sw2 sw1 : Bool) : ℕ :=
  let sel : ℕ := if sw2 = false then 2 else 0
  if sw1 = false then sel ||| 1 else sel

/-- The first `switch` of `loop` (lines 129-140): selector value 0 takes the
auto-cycle meter, values 1 and 2 select that meter directly, and the
`default` arm maps everything else (value 3) to meter 1. -/
def loopMeter (sel : ℕ) (cycleMeter : ℕ) : ℕ :=
  match sel with
  | 0 => cycleMeter
  | 1 => 1
  | 2 => 2
  | _ => 1

/-- Bounds of the clip in `getCurrent`. -/
theorem clipCurrent_mem (c : ℚ) : 0 ≤ clipCurrent c ∧ clipCurrent c ≤ MAX_CURRENT := by
  unfold clipCurrent MAX_CURRENT
  dsimp only
  split_ifs with h1 h2 h3 <;> constructor <;> linarith

/-- Claim C1: for every pair of raw ADC readings in [0, 1023], `getCurrent`
returns a value in the closed interval [0, MAX_CURRENT]; the function is
total, so no error can be raised — clamping is the only defence. -/
theorem getCurrent_range (a b : ℕ) (ha : a ≤ 1023) (hb : b ≤ 1023) :
    0 ≤ getCurrent a b ∧ getCurrent a b ≤ MAX_CURRENT := by
  unfold getCurrent
  exact clipCurrent_mem _

/-- Witness for C1 at the concrete readings a = 1023, b = 0. -/
theorem getCurrent_range_witness :
    (1023 : ℕ) ≤ 1023 ∧ (0 : ℕ) ≤ 1023 ∧
      (0 ≤ getCurrent 1023 0 ∧ getCurrent 1023 0 ≤ MAX_CURRENT) :=
  ⟨by norm_num, by norm_num, getCurrent_range 1023 0 (by norm_num) (by norm_num)⟩

/-- Claim C2: the code's `VOLTAGE` macro agrees with the spec's conversion
`raw * (referenceVoltage / adcMax) * probeScaleFactor`, and the value
`getCurrent` clips is exactly the spec's instantaneous current
`(regulatorVoltage - diodeVoltage) / resistorValue` of the two converted
voltages. -/
theorem getCurrent_conversion :
    (∀ raw : ℚ, VOLTAGE raw = specVoltage raw) ∧
      (∀ a b : ℕ,
        getCurrent a b = clipCurrent (specInstCurrent (specVoltage a) (specVoltage b))) := by
  constructor
  · intro raw
    unfold VOLTAGE specVoltage referenceVoltage adcMax probeScaleFactor
    norm_num
  · intro a b
    unfold getCurrent instCurrent specInstCurrent R_VAL resistorValue VOLTAGE specVoltage
      referenceVoltage adcMax probeScaleFactor
    norm_num

/-- Claim C7: the selector mapping table — (HIGH,HIGH) gives 0 = AUTO_CYCLE,
(HIGH,LOW) gives 1 = POWER_ONLY, (LOW,HIGH) gives 2 = TEMP_ONLY,
(LOW,LOW) gives 3 = UNUSED — and the main loop dispatches selector value 3
to meter 1 (POWER_ONLY) whatever the auto-cycle meter would have been. -/
theorem getSelector_table :
    getSelector true true = 0 ∧ getSelector true false = 1 ∧
      getSelector false true = 2 ∧ getSelector false false = 3 ∧
      ∀ cycleMeter : ℕ, loopMeter 3 cycleMeter = 1 := by
  refine ⟨rfl, rfl, rfl, rfl, fun cycleMeter => rfl⟩

/-- Claim C8: `getTemperature` always lands in [MIN_TEMP, MAX_TEMP]; a raw value
already inside the range passes through unchanged; a raw value below
MIN_TEMP clamps to MIN_TEMP and one above MAX_TEMP clamps to MAX_TEMP,
silently. -/
theorem getTemperature_spec (raw : ℚ) :
    (MIN_TEMP ≤ getTemperature raw ∧ getTemperature raw ≤ MAX_TEMP) ∧
      (MIN_TEMP ≤ raw → raw ≤ MAX_TEMP → getTemperature raw = raw) ∧
      (raw < MIN_TEMP → getTemperature raw = MIN_TEMP) ∧
      (MAX_TEMP < raw → getTemperature raw = MAX_TEMP) := by
  unfold getTemperature MIN_TEMP MAX_TEMP
  dsimp only
  split_ifs with h1 h2 h3 <;>
    refine ⟨⟨by linarith, by linarith⟩, ?_, ?_, ?_⟩ <;> intros <;> first | rfl | linarith

/-- Witness for C8 at the in-range raw value 50. -/
theorem getTemperature_spec_witness :
    MIN_TEMP ≤ (50 : ℚ) ∧ (50 : ℚ) ≤ MAX_TEMP ∧ getTemperature 50 = 50 :=
  ⟨by norm_num [MIN_TEMP], by norm_num [MAX_TEMP],
    (getTemperature_spec 50).2.1 (by norm_num [MIN_TEMP]) (by norm_num [MAX_TEMP])⟩

/-- Claim C9: with a converted regulator voltage of 3.0 V and a converted diode
voltage of 1.9 V, the current computed before clipping, using the 1.1 Ω
resistor preset, is exactly 1.0 A. -/
theorem instCurrent_example : instCurrent 3 1.9 = 1 := by
  unfold instCurrent R_VAL
  norm_num

/-- The mutable filter state of the firmware: the globals
`float current[N] = { 0.0 }` and `uint16_t indx = 0` (lines 53-54). The C
array has 8 slots; only indices 0..7 are ever read or written, so it is
embedded as a function on ℕ whose values above 7 are irrelevant. -/
structure FilterState where
  current : ℕ → ℚ
  indx : ℕ

/-- The initial state of the globals: an all-zero buffer and `indx = 0`. -/
def initState : FilterState := { current := fun _ => 0, indx := 0 }

/-- The sampling step of `updatePower` (lines 187-189):
`i = (indx++ % N); current[i] = getCurrent();` — the slot written is the old
`indx` modulo `N` = 8, and the `uint16_t` increment wraps modulo 2^16. -/
def pushSample (s : FilterState) (v : ℚ) : FilterState :=
  { current := Function.update s.current (s.indx % 8) v
    indx := (s.indx + 1) % 65536 }

/-- A sequence of `updatePower` sampling steps, one per pushed value. -/
def pushList (s : FilterState) (l : List ℚ) : FilterState := l.foldl pushSample s

/-- The averaging loop of `updatePower` (lines 192-196): sum the `N` = 8
slots and divide by `N`. -/
def meanCurrent (s : FilterState) : ℚ := (∑ i ∈ Finset.range 8, s.current i) / 8

/-- Truncation of a value toward zero, the semantics of the C cast
`int(...)` applied to a floating-point value. -/
def cIntTrunc (q : ℚ) : ℤ := if q < 0 then -⌊-q⌋ else ⌊q⌋

/-- The constant `#define MAX_VAL int(MAX_CURRENT * 1000)` (line 18), the
upper bound the power gauge is constructed with (line 170). -/
def MAX_VAL : ℤ := cIntTrunc (MAX_CURRENT * 1000)

/-- The gauge update of `updatePower` (lines 199-200): after pushing the new
sample, `val = int(avgCurrent * 1000)` is handed to `powerGauge->setValue`. -/
def updatePowerVal (s : FilterState) (v : ℚ) : ℤ :=
  cIntTrunc (meanCurrent (pushSample s v) * 1000)

/-- The buffer produced by a sequence of pushes depends on the start index
only through its residue modulo 8 (because 8 divides 2^16). -/
theorem pushList_current_congr (l : List ℚ) : ∀ f k k', k % 8 = k' % 8 →
    (pushList ⟨f, k⟩ l).current = (pushList ⟨f, k'⟩ l).current := by
  induction l with
  | nil => intro f k k' h; rfl
  | cons v t ih =>
    intro f k k' h
    show (pushList (pushSample ⟨f, k⟩ v) t).current = (pushList (pushSample ⟨f, k'⟩ v) t).current
    simp only [pushSample, h]
    exact ih _ _ _ (by omega)

/-- Pushing exactly 8 values from any state fills all 8 slots: the 8
successive write indices cover every residue modulo 8 exactly once, so the
buffer sum is the sum of the pushed values. -/
theorem sum_push8 (f : ℕ → ℚ) (k : ℕ) (v0 v1 v2 v3 v4 v5 v6 v7 : ℚ) :
    ∑ i ∈ Finset.range 8, (pushList ⟨f, k⟩ [v0, v1, v2, v3, v4, v5, v6, v7]).current i
      = v0 + v1 + v2 + v3 + v4 + v5 + v6 + v7 := by
  rw [pushList_current_congr _ f k (k % 8) (by omega)]
  obtain ⟨r, hr, hkr⟩ : ∃ r, r < 8 ∧ k % 8 = r := ⟨k % 8, Nat.mod_lt _ (by norm_num), rfl⟩
  rw [hkr]
  interval_cases r <;>
    (simp [pushList, pushSample, Function.update_apply, Finset.sum_range_succ]; try ring)

/-- List form of `sum_push8` for an arbitrary list of length 8. -/
theorem sum_push_len8 (s : FilterState) (l : List ℚ) (h : l.length = 8) :
    ∑ i ∈ Finset.range 8, (pushList s l).current i = l.sum := by
  obtain ⟨f, k⟩ := s
  rcases l with _ | ⟨v0, _ | ⟨v1, _ | ⟨v2, _ | ⟨v3, _ | ⟨v4, _ | ⟨v5, _ | ⟨v6, _ | ⟨v7, _ | ⟨v8, t⟩⟩⟩⟩⟩⟩⟩⟩⟩ <;>
      simp only [List.length_cons, List.length_nil] at h <;> try omega
  have hs := sum_push8 f k v0 v1 v2 v3 v4 v5 v6 v7
  simp only [List.sum_cons, List.sum_nil]
  linarith [hs]

/-- Claim C3: after 8 or more samples have been pushed, the averaged current
computed by `updatePower` is the unweighted arithmetic mean of exactly the
last 8 pushed samples, from any starting state — in particular across
wraparound of the `uint16_t` write index. -/
theorem meanCurrent_pushList (s : FilterState) (l : List ℚ) (h : 8 ≤ l.length) :
    meanCurrent (pushList s l) = (l.drop (l.length - 8)).sum / 8 := by
  induction l generalizing s with
  | nil => simp at h
  | cons v t ih =>
    by_cases ht : 8 ≤ t.length
    · have hstep : pushList s (v :: t) = pushList (pushSample s v) t := rfl
      rw [hstep, ih _ ht]
      have h2 : (v :: t).drop ((v :: t).length - 8) = t.drop (t.length - 8) := by
        rw [List.length_cons]
        have h3 : t.length + 1 - 8 = (t.length - 8) + 1 := by omega
        rw [h3, List.drop_succ_cons]
      rw [h2]
    · have hl : (v :: t).length = 8 := by
        simp only [List.length_cons] at h ⊢
        omega
      rw [meanCurrent, sum_push_len8 s _ hl, hl]
      simp

/-- Witness for C3: pushing nine concrete samples into the initial state
averages exactly the last eight of them. -/
theorem meanCurrent_pushList_witness :
    8 ≤ ([1, 2, 3, 4, 5, 6, 7, 8, 9] : List ℚ).length ∧
      meanCurrent (pushList initState [1, 2, 3, 4, 5, 6, 7, 8, 9])
        = (([1, 2, 3, 4, 5, 6, 7, 8, 9] : List ℚ).drop
            (([1, 2, 3, 4, 5, 6, 7, 8, 9] : List ℚ).length - 8)).sum / 8 :=
  ⟨by norm_num, meanCurrent_pushList initState [1, 2, 3, 4, 5, 6, 7, 8, 9] (by norm_num)⟩

/-- Claim C4: pushing the same value v in [0, MAX_CURRENT] eight consecutive
times makes the averaged current exactly v, from any starting state. -/
theorem meanCurrent_replicate (s : FilterState) (v : ℚ) (h0 : 0 ≤ v) (h1 : v ≤ MAX_CURRENT) :
    meanCurrent (pushList s (List.replicate 8 v)) = v := by
  obtain ⟨f, k⟩ := s
  have hs := sum_push8 f k v v v v v v v v
  rw [show List.replicate 8 v = [v, v, v, v, v, v, v, v] from rfl, meanCurrent, hs]
  ring

/-- Witness for C4 at the concrete value v = 2. -/
theorem meanCurrent_replicate_witness :
    (0 : ℚ) ≤ 2 ∧ (2 : ℚ) ≤ MAX_CURRENT ∧
      meanCurrent (pushList initState (List.replicate 8 2)) = 2 :=
  ⟨by norm_num, by norm_num [MAX_CURRENT],
    meanCurrent_replicate initState 2 (by norm_num) (by norm_num [MAX_CURRENT])⟩

/-- Claim C10: whenever every buffer slot holds either the initial 0.0 fill
or a (clamped) output of `getCurrent`, the value `updatePower` passes to
`powerGauge->setValue` lies within the gauge's construction bounds
[0, MAX_VAL] = [0, 2500]. -/
theorem updatePower_val_bounds (s : FilterState)
    (hs : ∀ i, i < 8 → s.current i = 0 ∨ ∃ a b : ℕ, s.current i = getCurrent a b)
    (a b : ℕ) :
    0 ≤ updatePowerVal s (getCurrent a b) ∧ updatePowerVal s (getCurrent a b) ≤ MAX_VAL := by
  have hb : ∀ i, i < 8 → 0 ≤ (pushSample s (getCurrent a b)).current i ∧
      (pushSample s (getCurrent a b)).current i ≤ MAX_CURRENT := by
    intro i hi
    simp only [pushSample, Function.update_apply]
    split
    · exact clipCurrent_mem _
    · rcases hs i hi with h | ⟨a2, b2, h⟩
      · rw [h]
        norm_num [MAX_CURRENT]
      · rw [h]
        exact clipCurrent_mem _
  have hsum0 : 0 ≤ ∑ i ∈ Finset.range 8, (pushSample s (getCurrent a b)).current i :=
    Finset.sum_nonneg fun i hi => (hb i (Finset.mem_range.mp hi)).1
  have hsum1 : ∑ i ∈ Finset.range 8, (pushSample s (getCurrent a b)).current i ≤ 20 := by
    calc ∑ i ∈ Finset.range 8, (pushSample s (getCurrent a b)).current i
        ≤ ∑ _i ∈ Finset.range 8, MAX_CURRENT :=
          Finset.sum_le_sum fun i hi => (hb i (Finset.mem_range.mp hi)).2
      _ = 20 := by norm_num [MAX_CURRENT]
  have hmean0 : 0 ≤ meanCurrent (pushSample s (getCurrent a b)) := by
    rw [meanCurrent]
    positivity
  have hmean1 : meanCurrent (pushSample s (getCurrent a b)) ≤ 5 / 2 := by
    rw [meanCurrent]
    linarith
  unfold updatePowerVal cIntTrunc
  rw [if_neg (by linarith)]
  constructor
  · exact Int.floor_nonneg.mpr (by linarith)
  · have hMV : MAX_VAL = 2500 := by norm_num [MAX_VAL, cIntTrunc, MAX_CURRENT]
    rw [hMV]
    have h2 : (⌊meanCurrent (pushSample s (getCurrent a b)) * 1000⌋ : ℤ) ≤ ⌊(2500 : ℚ)⌋ :=
      Int.floor_le_floor (by linarith)
    simpa using h2

/-- Witness for C10 at the initial all-zero state and readings a = b = 0. -/
theorem updatePower_val_bounds_witness :
    (∀ i, i < 8 → initState.current i = 0 ∨ ∃ a b : ℕ, initState.current i = getCurrent a b) ∧
      0 ≤ updatePowerVal initState (getCurrent 0 0) ∧
      updatePowerVal initState (getCurrent 0 0) ≤ MAX_VAL :=
  ⟨fun i _ => Or.inl rfl, updatePower_val_bounds initState (fun i _ => Or.inl rfl) 0 0⟩

/-- Reinterpretation of a signed value as a 16-bit unsigned one. On the
firmware's AVR target `int` and `unsigned int` are both 16 bits wide, so in
`iter / dwell` (line 114) the `int` operand `iter` undergoes the usual
arithmetic conversion to `unsigned int`, i.e. is taken modulo 2^16. -/
def toU16 (i : ℤ) : ℕ := (i % 65536).toNat

/-- The value computed by `getMeter` (line 114):
`val = (((iter / dwell) % num) + 1)`, with `iter` converted to 16-bit
unsigned (see `toU16`), the arithmetic done in 16-bit unsigned integers,
and the result stored in the `uint16_t` variable `val`. -/
def getMeterVal (num dwell : ℕ) (iter : ℤ) : ℕ :=
  ((toU16 iter / dwell) % num + 1) % 65536

/-- The `iter++` of `getMeter` (line 115): the counter is a 16-bit signed
`int` (line 55) that persists for the process lifetime and wraps at the
native signed width. -/
def iterNext (iter : ℤ) : ℤ := if iter = 32767 then -32768 else iter + 1

/-- The function `getMeter` (lines 111-117): returns the computed meter value
and the updated iteration counter. -/
def getMeter (num dwell : ℕ) (iter : ℤ) : ℕ × ℤ :=
  (getMeterVal num dwell iter, iterNext iter)

/-- The value of the counter `iter` before the k-th call of `getMeter`,
starting from the initial value 0 (line 55). -/
def nthIter (k : ℕ) : ℤ := iterNext^[k] 0

/-- Before the signed counter first wraps, the k-th call sees `iter = k`. -/
theorem nthIter_eq (k : ℕ) (h : k ≤ 32767) : nthIter k = k := by
  induction k with
  | zero => rfl
  | succ n ih =>
    have hn : n ≤ 32767 := by omega
    rw [nthIter, Function.iterate_succ_apply']
    have hnth : iterNext^[n] 0 = (n : ℤ) := ih hn
    rw [hnth, iterNext, if_neg (by omega)]
    omega

/-- Claim C5: starting from counter 0, the successive calls
`getMeter(2, 50)` return mode 1 on calls 0-49, mode 2 on calls 50-99 and
mode 1 again on calls 100-149, and each call increments the counter by
exactly 1. -/
theorem getMeter_cycle (k : ℕ) (hk : k < 150) :
    (getMeter 2 50 (nthIter k)).1 = (if k < 50 then 1 else if k < 100 then 2 else 1) ∧
      (getMeter 2 50 (nthIter k)).2 = nthIter k + 1 := by
  have hn : nthIter k = k := nthIter_eq k (by omega)
  rw [getMeter, hn]
  constructor
  · show getMeterVal 2 50 (k : ℤ) = _
    unfold getMeterVal toU16
    split_ifs <;> omega
  · show iterNext (k : ℤ) = (k : ℤ) + 1
    rw [iterNext, if_neg (by omega)]

/-- Witness for C5 at call number 120, which is back on mode 1. -/
theorem getMeter_cycle_witness :
    (120 : ℕ) < 150 ∧ (getMeter 2 50 (nthIter 120)).1 = 1 ∧
      (getMeter 2 50 (nthIter 120)).2 = nthIter 120 + 1 := by
  have h := getMeter_cycle 120 (by norm_num)
  refine ⟨by norm_num, ?_, h.2⟩
  rw [h.1]
  norm_num

/-- Claim C6: for every reachable (16-bit signed, possibly wrapped) value of
the counter, `getMeter` with `num ≥ 1` and `dwell ≥ 1` (both `uint16_t`)
returns a value in [1, num]. -/
theorem getMeter_range (iter : ℤ) (num dwell : ℕ)
    (hlo : -32768 ≤ iter) (hhi : iter ≤ 32767)
    (hnum1 : 1 ≤ num) (hnum2 : num < 65536) (hdwell : 1 ≤ dwell) :
    1 ≤ getMeterVal num dwell iter ∧ getMeterVal num dwell iter ≤ num := by
  unfold getMeterVal
  have h1 : (toU16 iter / dwell) % num < num := Nat.mod_lt _ (by omega)
  have h2 : ((toU16 iter / dwell) % num + 1) % 65536 = (toU16 iter / dwell) % num + 1 :=
    Nat.mod_eq_of_lt (by omega)
  omega

/-- Witness for C6 at the wrapped (negative) counter value -5 with the
deployed arguments num = 2, dwell = 50. -/
theorem getMeter_range_witness :
    (-32768 : ℤ) ≤ -5 ∧ (-5 : ℤ) ≤ 32767 ∧ (1 : ℕ) ≤ 2 ∧ (2 : ℕ) < 65536 ∧ (1 : ℕ) ≤ 50 ∧
      (1 ≤ getMeterVal 2 50 (-5) ∧ getMeterVal 2 50 (-5) ≤ 2) :=
  ⟨by norm_num, by norm_num, by norm_num, by norm_num, by norm_num,
    getMeter_range (-5) 2 50 (by norm_num) (by norm_num) (by norm_num) (by norm_num)
      (by norm_num)⟩
